import Mathlib

/-!
Verification development for the xlsx row viewer repository.

The repository contains two front ends over pandas data frames:
`xlsx_row_viewer.py` (terminal, curses) and `xlsx_row_viewer_gui.py`
(Tkinter).  This file gives a shallow embedding of the pure logic of
both: cell rendering (`to_str`), URL detection and normalization
(`URL_RE` / `normalize_url` and the GUI's inline detection branches),
record-view construction (`row_lines`), and the navigation state
machine of the interactive loops, together with theorems about them.

Strings are modelled as `List Char`.  Character predicates (`\s`, `\w`,
`str.strip`, `str.lower`) are modelled over the ASCII range, which the
Python functions agree with on ASCII input.
-/

namespace XlsxViewer

/-- Python `\s` whitespace class, ASCII range: space, tab, newline,
carriage return, vertical tab, form feed. -/
def isSpaceChar (c : Char) : Bool :=
  c = ' ' || c = '\t' || c = '\n' || c = '\r' || c = '\x0b' || c = '\x0c'

/-- Character class `[^\s<>"]` of `URL_RE`: anything but whitespace,
angle brackets and double quote. -/
def isUrlChar (c : Char) : Bool :=
  !(isSpaceChar c) && c ≠ '<' && c ≠ '>' && c ≠ '"'

/-- Python `\w` word class, ASCII range: letters, digits, underscore. -/
def isWordChar (c : Char) : Bool :=
  c.isAlphanum || c = '_'

/-- Python `str.lower`, ASCII range: lower-case each character. -/
def pyLower (s : List Char) : List Char :=
  s.map Char.toLower

/-- Does `s` start with the literal pattern `pat` (case-sensitive)?
Models Python `s.startswith(pat)`. -/
def startsL : List Char → List Char → Bool
  | [], _ => true
  | _ :: _, [] => false
  | p :: ps, c :: cs => p = c && startsL ps cs

/-- Python `s.lower().startswith(pat)` for a lower-case literal `pat`. -/
def lowerStarts (s pat : List Char) : Bool :=
  startsL pat (pyLower s)

/-- Python `str.strip()` (ASCII whitespace): drop leading and trailing
whitespace characters. -/
def pyStrip (s : List Char) : List Char :=
  ((s.dropWhile isSpaceChar).reverse.dropWhile isSpaceChar).reverse

/-- Case-insensitive literal match: if `s` begins with the (lower-case)
pattern `pat` up to `Char.toLower`, return the actually matched source
characters and the remainder of `s`. -/
def ciStrip : List Char → List Char → Option (List Char × List Char)
  | [], s => some ([], s)
  | _ :: _, [] => none
  | p :: ps, c :: cs =>
    if c.toLower = p then
      (ciStrip ps cs).map (fun mr => (c :: mr.1, mr.2))
    else none

/-- One alternative of `URL_RE` at the current position: a case-insensitive
literal scheme `pat` followed by a greedy run of one or more `[^\s<>"]`
characters.  Returns the matched token. -/
def schemeTok (pat s : List Char) : Option (List Char) :=
  match ciStrip pat s with
  | some (m, r) =>
    let run := r.takeWhile isUrlChar
    if run.isEmpty then none else some (m ++ run)
  | none => none

/-- The `https?://[^\s<>"]+` alternative of `URL_RE` (without the `\b`):
greedy `s?` means `https://` is tried before `http://`. -/
def httpTok (s : List Char) : Option (List Char) :=
  schemeTok "https://".data s <|> schemeTok "http://".data s

/-- The `www\.[^\s<>"]+` alternative of `URL_RE`. -/
def wwwTok (s : List Char) : Option (List Char) :=
  schemeTok "www.".data s

/-- `URL_RE` tried at one position.  `prevWord` says whether the character
before this position is a word character: the `\b` in
`\bhttps?://[^\s<>"]+|www\.[^\s<>"]+` guards only the first alternative
(the following character `h` is a word character, so `\b` holds exactly
when the previous one is not). -/
def matchAt (prevWord : Bool) (s : List Char) : Option (List Char) :=
  (if prevWord then none else httpTok s) <|> wwwTok s

/-- `re.search` with `URL_RE`: scan positions left to right, at each
position try the first alternative then the second, return the first
match.  The Boolean argument carries whether the previous character was
a word character (for `\b`); the scan starts with `false` (string start
is a boundary before a word character). -/
def urlSearch : Bool → List Char → Option (List Char)
  | _, [] => none
  | prevWord, c :: cs =>
    match matchAt prevWord (c :: cs) with
    | some t => some t
    | none => urlSearch (isWordChar c) cs

/-- Embedding of `normalize_url` (xlsx_row_viewer.py, lines 53-63):
strip, return `None` on empty, search with `URL_RE`, and prepend
`https://` when the match lower-starts with `www.`. -/
def normalize_url (s : List Char) : Option (List Char) :=
  let t := pyStrip s
  if t.isEmpty then none
  else
    match urlSearch false t with
    | none => none
    | some url =>
      if lowerStarts url "www.".data then some ("https://".data ++ url)
      else some url

/-! ### Position-based reference search

`urlSearch` is a left-to-right scanner.  To state "the first occurrence
in the string", we also define an index-based search (smallest starting
position with a match) and prove the two agree. -/

/-- The list of positions `i, i+1, ..., i+k-1`. -/
def posns : Nat → Nat → List Nat
  | _, 0 => []
  | i, k + 1 => i :: posns (i + 1) k

/-- Whether the character before position `i` of `s` is a word
character (`false` at the start of the string). -/
def prevIsWord (s : List Char) : Nat → Bool
  | 0 => false
  | j + 1 =>
    match s.get? j with
    | some c => isWordChar c
    | none => false

/-- Index-based search: the match of `URL_RE` at the smallest starting
position, with the word-boundary condition of `\b` on the `https?://`
alternative. -/
def specSearch (s : List Char) : Option (List Char) :=
  ((posns 0 s.length).filterMap
    (fun j => matchAt (prevIsWord s j) (s.drop j))).head?

/-- Detection and normalization as the amended claim describes them:
first position whose token matches (boundary-guarded `https?://`, or
`www.` at any position), then the `www.` → `https://` rewrite. -/
def specNormalize (s : List Char) : Option (List Char) :=
  let t := pyStrip s
  if t.isEmpty then none
  else
    match specSearch t with
    | none => none
    | some url =>
      if lowerStarts url "www.".data then some ("https://".data ++ url)
      else some url

/-- Detection exactly as the claim words it, with no word-boundary
condition on either alternative: the first position at which either
`https?://` or `www.` (case-insensitive) starts, followed by one or
more non-whitespace, non-angle-bracket, non-quote characters. -/
def claimSearch (s : List Char) : Option (List Char) :=
  ((posns 0 s.length).filterMap
    (fun j => httpTok (s.drop j) <|> wwwTok (s.drop j))).head?

/-- Normalization applied to `claimSearch`, as the claim words it. -/
def claimNormalize (s : List Char) : Option (List Char) :=
  let t := pyStrip s
  if t.isEmpty then none
  else
    match claimSearch t with
    | none => none
    | some url =>
      if lowerStarts url "www.".data then some ("https://".data ++ url)
      else some url

/-! ### Cells, tables and record views -/

/-- Decimal digit character. -/
def digitChar : Nat → Char
  | 0 => '0' | 1 => '1' | 2 => '2' | 3 => '3' | 4 => '4'
  | 5 => '5' | 6 => '6' | 7 => '7' | 8 => '8' | 9 => '9'
  | _ => '*'

/-- Decimal rendering of a natural number (Python `str` on a
non-negative int). -/
def natRepr (n : Nat) : List Char :=
  if _h : n < 10 then [digitChar n]
  else natRepr (n / 10) ++ [digitChar (n % 10)]
termination_by n
decreasing_by
  exact Nat.div_lt_self (by omega) (by omega)

/-- Python `str(int(x))`: optional sign and decimal digits. -/
def intRepr (i : Int) : List Char :=
  if i < 0 then '-' :: natRepr i.natAbs else natRepr i.toNat

/-- Raw pandas cell values as the claims need them: NaN/None (absent),
a string, or a float whose value is mathematically an integer
(`x.is_integer()`).  Non-integer floats occur in no claim and are not
modelled. -/
inductive Cell where
  | nan : Cell
  | text : List Char → Cell
  | intFloat : Int → Cell
  deriving DecidableEq

/-- Embedding of `to_str` (xlsx_row_viewer.py, lines 42-50): NaN becomes
the empty string, a float that `is_integer()` prints as `str(int(x))`,
and strings print unchanged (`str` on a `str` is the identity). -/
def to_str : Cell → List Char
  | Cell.nan => []
  | Cell.text s => s
  | Cell.intFloat n => intRepr n

/-- Python `str(v)` as the GUI calls it (no integer collapse): an
integer-valued float prints with a trailing `.0`.  (`str(float)` uses
scientific notation above 1e16; cells that large occur in no claim.)
The NaN case is unreachable: both GUI call sites test `pd.isna`
first. -/
def pyStr : Cell → List Char
  | Cell.nan => "nan".data
  | Cell.text s => s
  | Cell.intFloat n => intRepr n ++ ".0".data

/-- A loaded sheet: ordered column names and rows, each row listing cell
values in column order (pandas guarantees one value per column). -/
structure Table where
  cols : List (List Char)
  rows : List (List Cell)
  deriving DecidableEq

/-- A table is well formed when every row has one cell per column. -/
def Table.WF (df : Table) : Prop :=
  ∀ r ∈ df.rows, r.length = df.cols.length

/-- `df.iloc[i]` on rows: non-negative indices count from the front,
negative indices from the back (Python indexing); anything else raises
`IndexError`, modelled as `none`. -/
def ilocRow (rows : List (List Cell)) (i : Int) : Option (List Cell) :=
  if 0 ≤ i then rows.get? i.toNat
  else if -(rows.length : Int) ≤ i then rows.get? ((rows.length : Int) + i).toNat
  else none

/-- Python truthiness of `Optional[str]`: `None` and the empty string
are falsy (`if url:` in the source). -/
def truthy : Option (List Char) → Bool
  | none => false
  | some u => !u.isEmpty

/-- A field view: column name, shown value, optional normalized URL. -/
abbrev FieldView := List Char × List Char × Option (List Char)

/-- The field view one iteration of the `row_lines` loop appends:
column name, shown value (with the `(empty)` sentinel for the empty
string), and detected URL. -/
def fieldView (cv : List Char × Cell) : FieldView :=
  let val_s := to_str cv.2
  let url := normalize_url val_s
  let shown := if val_s.isEmpty then "(empty)".data else val_s
  (cv.1, shown, url)

/-- The `for col in df.columns` loop of `row_lines` (xlsx_row_viewer.py,
lines 92-100), with the two accumulators explicit. -/
def row_lines_loop :
    List (List Char × Cell) → List FieldView → List Nat →
    List FieldView × List Nat
  | [], lines, url_line_indices => (lines, url_line_indices)
  | cv :: rest, lines, url_line_indices =>
    let fv := fieldView cv
    let lines' := lines ++ [fv]
    let url_line_indices' :=
      if truthy fv.2.2 then url_line_indices ++ [lines'.length - 1]
      else url_line_indices
    row_lines_loop rest lines' url_line_indices'

/-- Embedding of `row_lines` (xlsx_row_viewer.py, lines 90-101):
`df.iloc[row_idx]`, then one field view per column; `row[col]` reads
the cell at that column's position. -/
def row_lines (df : Table) (row_idx : Int) :
    Option (List FieldView × List Nat) :=
  match ilocRow df.rows row_idx with
  | none => none
  | some row => some (row_lines_loop (df.cols.zip row) [] [])

/-! ### The GUI's URL detection -/

/-- The URL-detection branch of the GUI's `render_row`
(xlsx_row_viewer_gui.py, lines 404-417), per cell: no URL for NaN;
else strip `str(v)` and test whether the whole value starts with
`www.` (case-sensitive) or, lower-cased, with `http://`/`https://`. -/
def gui_detect_render : Cell → Option (List Char)
  | Cell.nan => none
  | v =>
    let s := pyStrip (pyStr v)
    if startsL "www.".data s then some ("https://".data ++ s)
    else if lowerStarts s "http://".data || lowerStarts s "https://".data then
      some s
    else none

/-- The per-cell detection of the GUI's `open_all_urls`
(xlsx_row_viewer_gui.py, lines 295-303): skip NaN, strip `str(v)`,
prepend `https://` when the value starts with `www.`, and keep the
result when it lower-starts with `http://`/`https://`. -/
def gui_detect_open : Cell → Option (List Char)
  | Cell.nan => none
  | v =>
    let s0 := pyStrip (pyStr v)
    let s := if startsL "www.".data s0 then "https://".data ++ s0 else s0
    if lowerStarts s "http://".data || lowerStarts s "https://".data then some s
    else none

/-- The terminal viewer's per-cell URL: `normalize_url(to_str(v))`
(xlsx_row_viewer.py, lines 95-96). -/
def terminal_detect (v : Cell) : Option (List Char) :=
  normalize_url (to_str v)

/-- `open_all_urls` (xlsx_row_viewer_gui.py, lines 290-308): the URLs
collected from the current row; an empty data frame returns at once. -/
def open_all_urls (df : Table) (row : Int) : List (List Char) :=
  if df.rows.length = 0 then []
  else
    match ilocRow df.rows row with
    | some r => (df.cols.zip r).filterMap (fun cv => gui_detect_open cv.2)
    | none => []

/-! ### The navigation state machine -/

/-- The mutable state of the terminal's `interactive` loop
(xlsx_row_viewer.py, lines 158-159): current row and URL-focus index. -/
structure NavState where
  row_idx : Int
  url_focus_i : Int
  deriving DecidableEq

/-- Initial state of `interactive`: row 0, focus 0. -/
def navInit : NavState := ⟨0, 0⟩

/-- Keys the `interactive` loop reacts to (besides `q`). -/
inductive Key where
  | left
  | right
  | tab
  | enter
  deriving DecidableEq

/-- The clamp `draw` applies to `url_focus_i` before returning it
(xlsx_row_viewer.py, lines 118-120); the loop stores the returned
value.  When the row has no URL fields the incoming value is returned
unchanged. -/
def clampFocus (df : Table) (s : NavState) : NavState :=
  match row_lines df s.row_idx with
  | some lu =>
    if lu.2.isEmpty then s
    else { s with url_focus_i := max 0 (min s.url_focus_i ((lu.2.length : Int) - 1)) }
  | none => s

/-- One key dispatch of the `interactive` loop (xlsx_row_viewer.py,
lines 168-189).  The `none` case of `row_lines` cannot arise there
(the loop keeps `row_idx` in range) and is modelled as a no-op. -/
def stepKey (df : Table) (k : Key) (s : NavState) : NavState :=
  match k with
  | Key.right =>
    if s.row_idx < (df.rows.length : Int) - 1 then
      { row_idx := s.row_idx + 1, url_focus_i := 0 }
    else s
  | Key.left =>
    if s.row_idx > 0 then
      { row_idx := s.row_idx - 1, url_focus_i := 0 }
    else s
  | Key.tab =>
    match row_lines df s.row_idx with
    | some lu =>
      if lu.2.isEmpty then s
      else { s with url_focus_i := (s.url_focus_i + 1) % (lu.2.length : Int) }
    | none => s
  | Key.enter => s

/-- One full iteration of the `interactive` loop: `draw` stores the
clamped focus, then the key is dispatched. -/
def loopStep (df : Table) (k : Key) (s : NavState) : NavState :=
  stepKey df k (clampFocus df s)

/-- The URL focus as the specification observes it: `undefined` (`none`)
when the current record has no URL-bearing field. -/
def urlFocusObs (df : Table) (s : NavState) : Option Int :=
  match row_lines df s.row_idx with
  | some lu => if lu.2.isEmpty then none else some s.url_focus_i
  | none => none

/-- What `draw` renders (xlsx_row_viewer.py, lines 104-121): the empty
data frame short-circuits to an empty view before `row_lines` runs. -/
def currentView (df : Table) (row_idx : Int) : List FieldView × List Nat :=
  if df.rows.length = 0 then ([], [])
  else
    match row_lines df row_idx with
    | some lu => lu
    | none => ([], [])

/-- `prev_row` of the GUI (xlsx_row_viewer_gui.py, lines 276-281). -/
def gui_prev_row (df : Table) (row : Int) : Int :=
  if df.rows.length = 0 then row
  else if row > 0 then row - 1 else row

/-- `next_row` of the GUI (xlsx_row_viewer_gui.py, lines 283-288). -/
def gui_next_row (df : Table) (row : Int) : Int :=
  if df.rows.length = 0 then row
  else if row < (df.rows.length : Int) - 1 then row + 1 else row

/-! ### Concrete tables used in witnesses and counterexamples -/

/-- The 3-row, 2-column table of the C5 scenario: row 0 has one URL
field, row 1 none, row 2 two. -/
def exTable3 : Table where
  cols := ["A".data, "B".data]
  rows :=
    [ [Cell.text "https://a.com".data, Cell.text "x".data]
    , [Cell.text "x".data, Cell.text "y".data]
    , [Cell.text "www.a".data, Cell.text "http://b".data] ]

/-- A 2-row table with distinct rows, for the indexing counterexample. -/
def exTable2 : Table where
  cols := ["A".data]
  rows := [[Cell.text "r0".data], [Cell.text "https://r1.com".data]]

/-- A table with zero rows. -/
def exTable0 : Table where
  cols := ["A".data]
  rows := []

/-- The URL index list `row_lines` accumulates, expressed as a function
of the remaining columns and the current offset (used to characterize
the loop). -/
def urlIdx : List (List Char × Cell) → Nat → List Nat
  | [], _ => []
  | cv :: rest, off =>
    (if truthy (fieldView cv).2.2 then [off] else []) ++ urlIdx rest (off + 1)

/-! ### Lemmas and claim theorems -/

lemma drop_eq_cons_of_get? {s : List Char} {i : Nat} {c : Char}
    (h : s.get? i = some c) : s.drop i = c :: s.drop (i + 1) := by
  induction s generalizing i with
  | nil => simp at h
  | cons a as ih =>
    cases i with
    | zero => simp_all
    | succ j =>
      simp only [List.get?_cons_succ] at h
      simpa using ih h

lemma urlSearch_from (s : List Char) :
    ∀ k i, s.length = i + k →
      urlSearch (prevIsWord s i) (s.drop i) =
        ((posns i k).filterMap
          (fun j => matchAt (prevIsWord s j) (s.drop j))).head? := by
  intro k
  induction k with
  | zero =>
    intro i h
    have hd : s.drop i = [] := List.drop_eq_nil_of_le (by omega)
    rw [hd]
    simp [urlSearch, posns]
  | succ k ih =>
    intro i h
    have hlt : i < s.length := by omega
    have hc : s.get? i = some (s.get ⟨i, hlt⟩) := List.get?_eq_get hlt
    set c := s.get ⟨i, hlt⟩ with hcdef
    have hdrop : s.drop i = c :: s.drop (i + 1) := drop_eq_cons_of_get? hc
    have hprev : prevIsWord s (i + 1) = isWordChar c := by
      show (match s.get? i with
            | some c => isWordChar c
            | none => false) = isWordChar c
      rw [hc]
    rw [hdrop]
    show (match matchAt (prevIsWord s i) (c :: s.drop (i + 1)) with
          | some t => some t
          | none => urlSearch (isWordChar c) (s.drop (i + 1))) = _
    rw [show posns i (k + 1) = i :: posns (i + 1) k from rfl]
    rw [List.filterMap_cons]
    cases hm : matchAt (prevIsWord s i) (c :: s.drop (i + 1)) with
    | some t =>
      rw [hdrop, hm]
      simp
    | none =>
      rw [hdrop, hm]
      rw [← hprev]
      exact ih (i + 1) (by omega)

/-- The scanner implements the index-based "first occurrence" search. -/
theorem urlSearch_eq_specSearch (s : List Char) :
    urlSearch false s = specSearch s := by
  have h := urlSearch_from s s.length 0 (by omega)
  simpa [specSearch, prevIsWord] using h

lemma normalize_url_eq_specNormalize (s : List Char) :
    normalize_url s = specNormalize s := by
  unfold normalize_url specNormalize
  simp only [urlSearch_eq_specSearch]

/-- C1, counterexample: the claim describes detection with no condition
beyond the token's leading `https?://` or `www.`, but `URL_RE` puts a
word boundary `\b` before the `https?://` alternative only.  In
`"xhttp://a"` a token beginning with `http://` followed by valid
characters occurs (detection as claimed finds `"http://a"`), yet
`normalize_url` returns no URL. -/
theorem claim1_counterexample :
    normalize_url "xhttp://a".data = none ∧
    claimNormalize "xhttp://a".data = some "http://a".data :=
  ⟨by decide, by decide⟩

/-- C1, amended: detection returns the match at the first position where
either `https?://` — additionally required to start at a word boundary
(start of string, or preceded by a non-word character) — or `www.` (at
any position) occurs case-insensitively, followed by one or more
non-whitespace, non-angle-bracket, non-quote characters; normalization
prepends `https://` exactly when the match lower-starts with `www.`,
and a string with no match yields no URL.  The three example strings
behave as the claim states. -/
theorem claim1_detection_amended :
    (∀ s : List Char, normalize_url s = specNormalize s) ∧
    normalize_url "Contact: https://example.com/a?b=1 thanks".data =
      some "https://example.com/a?b=1".data ∧
    normalize_url "see www.example.org".data =
      some "https://www.example.org".data ∧
    normalize_url "no link here".data = none :=
  ⟨normalize_url_eq_specNormalize, by decide, by decide, by decide⟩

/-! ### Shape of every detected URL (C10) -/

/-- The characters the scheme literals of `URL_RE` are built from. -/
def patChars : List Char := "https://www.".data

lemma isUrlChar_false_cases {c : Char} (h : isUrlChar c = false) :
    c = ' ' ∨ c = '\t' ∨ c = '\n' ∨ c = '\r' ∨ c = '\x0b' ∨ c = '\x0c' ∨
    c = '<' ∨ c = '>' ∨ c = '"' := by
  simp only [isUrlChar, isSpaceChar, Bool.and_eq_false_iff, Bool.not_eq_false',
    Bool.or_eq_true, decide_eq_true_eq, ne_eq, Bool.not_eq_true,
    decide_eq_false_iff_not, not_not] at h
  tauto

lemma urlChar_of_toLower_mem {c p : Char} (hp : p ∈ patChars)
    (h : c.toLower = p) : isUrlChar c = true := by
  cases hu : isUrlChar c
  · exfalso
    rcases isUrlChar_false_cases hu with h1|h1|h1|h1|h1|h1|h1|h1|h1 <;>
      subst h1 <;> (apply absurd hp; rw [← h]; decide)
  · rfl

lemma ciStrip_some {pat s m r : List Char}
    (h : ciStrip pat s = some (m, r)) :
    m.map Char.toLower = pat ∧ s = m ++ r := by
  induction pat generalizing s m r with
  | nil =>
    simp only [ciStrip, Option.some.injEq, Prod.mk.injEq] at h
    rcases h with ⟨hm, hr⟩
    subst hm; subst hr; simp
  | cons p ps ih =>
    cases s with
    | nil => simp [ciStrip] at h
    | cons c cs =>
      simp only [ciStrip] at h
      by_cases hc : c.toLower = p
      · rw [if_pos hc] at h
        cases hrec : ciStrip ps cs with
        | none => rw [hrec] at h; simp at h
        | some mr =>
          obtain ⟨m', r'⟩ := mr
          rw [hrec] at h
          simp only [Option.map_some', Option.some.injEq, Prod.mk.injEq] at h
          obtain ⟨hm, hr⟩ := h
          obtain ⟨ih1, ih2⟩ := ih hrec
          subst hm; subst hr
          constructor
          · simp [ih1, hc]
          · simp [ih2]
      · rw [if_neg hc] at h; simp at h

lemma startsL_append (p r : List Char) : startsL p (p ++ r) = true := by
  induction p with
  | nil => rfl
  | cons a as ih => simp [startsL, ih]

lemma startsL_false_of_ne {a b : Char} (hab : b ≠ a) {as bs l : List Char}
    (h : startsL (a :: as) l = true) : startsL (b :: bs) l = false := by
  cases l with
  | nil => simp [startsL] at h
  | cons c cs =>
    simp only [startsL, Bool.and_eq_true, decide_eq_true_eq] at h
    obtain ⟨h1, _⟩ := h
    simp [startsL, ← h1, hab]

lemma schemeTok_some {pat s t : List Char} (h : schemeTok pat s = some t) :
    ∃ m run, t = m ++ run ∧ m.map Char.toLower = pat ∧ run ≠ [] ∧
      ∀ c ∈ run, isUrlChar c = true := by
  unfold schemeTok at h
  cases hstrip : ciStrip pat s with
  | none => rw [hstrip] at h; simp at h
  | some mr =>
    obtain ⟨m, r⟩ := mr
    rw [hstrip] at h
    change (if (r.takeWhile isUrlChar).isEmpty then none
            else some (m ++ r.takeWhile isUrlChar)) = some t at h
    by_cases hrun : (r.takeWhile isUrlChar).isEmpty
    · rw [if_pos hrun] at h; simp at h
    · rw [if_neg hrun] at h
      obtain ⟨hm, _⟩ := ciStrip_some hstrip
      refine ⟨m, r.takeWhile isUrlChar, ?_, hm, ?_, ?_⟩
      · exact (Option.some.injEq .. ▸ h).symm
      · simpa [List.isEmpty_iff] using hrun
      · intro c hc
        exact List.mem_takeWhile_imp hc

lemma schemeTok_shape {pat s t : List Char} (hsub : ∀ c ∈ pat, c ∈ patChars)
    (h : schemeTok pat s = some t) :
    lowerStarts t pat = true ∧ t ≠ [] ∧ ∀ c ∈ t, isUrlChar c = true := by
  obtain ⟨m, run, ht, hm, hrun, hchars⟩ := schemeTok_some h
  subst ht
  refine ⟨?_, by simp [hrun], ?_⟩
  · unfold lowerStarts pyLower
    rw [List.map_append, hm]
    exact startsL_append pat _
  · intro c hc
    rcases List.mem_append.mp hc with hcm | hcr
    · exact urlChar_of_toLower_mem (hsub _ (hm ▸ List.mem_map_of_mem _ hcm)) rfl
    · exact hchars c hcr

lemma httpTok_shape {s t : List Char} (h : httpTok s = some t) :
    (lowerStarts t "https://".data = true ∨ lowerStarts t "http://".data = true) ∧
    t ≠ [] ∧ ∀ c ∈ t, isUrlChar c = true := by
  unfold httpTok at h
  cases h1 : schemeTok "https://".data s with
  | some t' =>
    rw [h1] at h
    simp only [Option.some_orElse, Option.some.injEq] at h
    subst h
    obtain ⟨h2, h3, h4⟩ := schemeTok_shape (by decide) h1
    exact ⟨Or.inl h2, h3, h4⟩
  | none =>
    rw [h1] at h
    simp only [Option.none_orElse] at h
    obtain ⟨h2, h3, h4⟩ := schemeTok_shape (by decide) h
    exact ⟨Or.inr h2, h3, h4⟩

lemma wwwTok_shape {s t : List Char} (h : wwwTok s = some t) :
    lowerStarts t "www.".data = true ∧ t ≠ [] ∧ ∀ c ∈ t, isUrlChar c = true :=
  schemeTok_shape (by decide) h

lemma matchAt_shape {prev : Bool} {s t : List Char}
    (h : matchAt prev s = some t) :
    (lowerStarts t "https://".data = true ∨ lowerStarts t "http://".data = true ∨
      lowerStarts t "www.".data = true) ∧
    t ≠ [] ∧ ∀ c ∈ t, isUrlChar c = true := by
  unfold matchAt at h
  cases prev with
  | true =>
    simp only [if_true, Option.none_orElse] at h
    obtain ⟨h1, h2, h3⟩ := wwwTok_shape h
    exact ⟨Or.inr (Or.inr h1), h2, h3⟩
  | false =>
    simp only [Bool.false_eq_true, if_false] at h
    cases h1 : httpTok s with
    | some t' =>
      rw [h1] at h
      simp only [Option.some_orElse, Option.some.injEq] at h
      subst h
      obtain ⟨h2, h3, h4⟩ := httpTok_shape h1
      exact ⟨h2.imp id Or.inl, h3, h4⟩
    | none =>
      rw [h1] at h
      simp only [Option.none_orElse] at h
      obtain ⟨h2, h3, h4⟩ := wwwTok_shape h
      exact ⟨Or.inr (Or.inr h2), h3, h4⟩

lemma urlSearch_shape {prev : Bool} {s t : List Char}
    (h : urlSearch prev s = some t) :
    (lowerStarts t "https://".data = true ∨ lowerStarts t "http://".data = true ∨
      lowerStarts t "www.".data = true) ∧
    t ≠ [] ∧ ∀ c ∈ t, isUrlChar c = true := by
  induction s generalizing prev with
  | nil => simp [urlSearch] at h
  | cons c cs ih =>
    have hstep : urlSearch prev (c :: cs) =
        (match matchAt prev (c :: cs) with
         | some t => some t
         | none => urlSearch (isWordChar c) cs) := rfl
    rw [hstep] at h
    cases hm : matchAt prev (c :: cs) with
    | some t' =>
      rw [hm] at h
      simp only [Option.some.injEq] at h
      subst h
      exact matchAt_shape hm
    | none =>
      rw [hm] at h
      exact ih h

lemma normalize_url_some_shape {s u : List Char}
    (h : normalize_url s = some u) :
    u ≠ [] ∧
    (lowerStarts u "http://".data = true ∨ lowerStarts u "https://".data = true) ∧
    ∀ c ∈ u, isUrlChar c = true := by
  unfold normalize_url at h
  change (if (pyStrip s).isEmpty then none
          else
            match urlSearch false (pyStrip s) with
            | none => none
            | some url =>
              if lowerStarts url "www.".data then
                some ("https://".data ++ url)
              else some url) = some u at h
  cases hE : (pyStrip s).isEmpty with
  | true => rw [hE] at h; simp at h
  | false =>
    rw [hE] at h
    simp only [Bool.false_eq_true, if_false] at h
    cases hU : urlSearch false (pyStrip s) with
    | none => rw [hU] at h; simp at h
    | some url =>
      rw [hU] at h
      change (if lowerStarts url "www.".data then
                some ("https://".data ++ url)
              else some url) = some u at h
      obtain ⟨hsch, hne, hchars⟩ := urlSearch_shape hU
      rcases hsch with hs | hs | hs
      · have hw : lowerStarts url "www.".data = false :=
          startsL_false_of_ne (by decide) hs
        rw [hw] at h
        simp only [Bool.false_eq_true, if_false, Option.some.injEq] at h
        subst h
        exact ⟨hne, Or.inr hs, hchars⟩
      · have hw : lowerStarts url "www.".data = false :=
          startsL_false_of_ne (by decide) hs
        rw [hw] at h
        simp only [Bool.false_eq_true, if_false, Option.some.injEq] at h
        subst h
        exact ⟨hne, Or.inl hs, hchars⟩
      · rw [hs] at h
        simp only [if_true, Option.some.injEq] at h
        subst h
        refine ⟨by simp, Or.inr ?_, ?_⟩
        · unfold lowerStarts pyLower
          rw [List.map_append]
          rw [show "https://".data.map Char.toLower = "https://".data from by decide]
          exact startsL_append _ _
        · intro c hc
          rcases List.mem_append.mp hc with hcm | hcr
          · exact (show ∀ x ∈ "https://".data, isUrlChar x = true from by decide) c hcm
          · exact hchars c hcr

/-- C10: for every input string, `normalize_url` returns either no URL
or a non-empty string that case-insensitively begins with `http://` or
`https://` and contains no whitespace character, no `<`, no `>` and no
`"`; so every URL handed to the activation collaborator is directly
openable without further cleaning. -/
theorem claim10_url_shape (s : List Char) :
    normalize_url s = none ∨
    ∃ u, normalize_url s = some u ∧ u ≠ [] ∧
      (lowerStarts u "http://".data = true ∨ lowerStarts u "https://".data = true) ∧
      ∀ c ∈ u, isUrlChar c = true := by
  cases h : normalize_url s with
  | none => exact Or.inl rfl
  | some u =>
    obtain ⟨h1, h2, h3⟩ := normalize_url_some_shape h
    exact Or.inr ⟨u, rfl, h1, h2, h3⟩

/-! ### Terminal versus GUI URL detection (C2) -/

lemma startsL_take {pat l : List Char} (h : startsL pat l = true) :
    l.take pat.length = pat := by
  induction pat generalizing l with
  | nil => rfl
  | cons p ps ih =>
    cases l with
    | nil => simp [startsL] at h
    | cons c cs =>
      simp only [startsL, Bool.and_eq_true, decide_eq_true_eq] at h
      obtain ⟨h1, h2⟩ := h
      simp [List.take, ih h2, h1]

lemma startsL_cons {a : Char} {as l : List Char}
    (h : startsL (a :: as) l = true) :
    ∃ l', l = a :: l' ∧ startsL as l' = true := by
  cases l with
  | nil => simp [startsL] at h
  | cons c cs =>
    simp only [startsL, Bool.and_eq_true, decide_eq_true_eq] at h
    exact ⟨cs, by rw [h.1], h.2⟩

lemma lowerStarts_of_ciStrip {pat s m r : List Char}
    (h : ciStrip pat s = some (m, r)) : lowerStarts s pat = true := by
  obtain ⟨hm, hs⟩ := ciStrip_some h
  unfold lowerStarts pyLower
  rw [hs, List.map_append, hm]
  exact startsL_append _ _

lemma ciStrip_of_lowerStarts {pat s : List Char}
    (h : lowerStarts s pat = true) :
    ciStrip pat s = some (s.take pat.length, s.drop pat.length) := by
  induction pat generalizing s with
  | nil => simp [ciStrip]
  | cons p ps ih =>
    cases s with
    | nil => simp [lowerStarts, pyLower, startsL] at h
    | cons c cs =>
      unfold lowerStarts pyLower at h
      simp only [List.map_cons, startsL, Bool.and_eq_true,
        decide_eq_true_eq] at h
      obtain ⟨h1, h2⟩ := h
      have ihc := ih (s := cs) (by simpa [lowerStarts, pyLower] using h2)
      simp [ciStrip, h1, ihc, List.take, List.drop]

lemma takeWhile_all {p : Char → Bool} {r : List Char}
    (h : ∀ c ∈ r, p c = true) : r.takeWhile p = r := by
  induction r with
  | nil => rfl
  | cons c cs ih =>
    rw [List.takeWhile_cons, h c (by simp)]
    simp [ih fun x hx => h x (by simp [hx])]

lemma dropWhile_all_false {p : Char → Bool} {s : List Char}
    (h : ∀ c ∈ s, p c = false) : s.dropWhile p = s := by
  cases s with
  | nil => rfl
  | cons c cs => rw [List.dropWhile_cons, h c (by simp)]; simp

lemma space_false_of_urlChar {c : Char} (h : isUrlChar c = true) :
    isSpaceChar c = false := by
  unfold isUrlChar at h
  simp only [Bool.and_eq_true, Bool.not_eq_true'] at h
  exact h.1.1.1

lemma pyStrip_eq_self {s : List Char}
    (h : ∀ c ∈ s, isSpaceChar c = false) : pyStrip s = s := by
  unfold pyStrip
  rw [dropWhile_all_false h,
    dropWhile_all_false (fun c hc => h c (List.mem_reverse.mp hc)),
    List.reverse_reverse]

lemma lowerStarts_of_startsL {pat s : List Char}
    (hfix : ∀ p ∈ pat, p.toLower = p) (h : startsL pat s = true) :
    lowerStarts s pat = true := by
  induction pat generalizing s with
  | nil => rfl
  | cons p ps ih =>
    obtain ⟨l', rfl, h2⟩ := startsL_cons h
    have ihx := ih (fun q hq => hfix q (by simp [hq])) h2
    unfold lowerStarts pyLower at ihx ⊢
    simp [startsL, hfix p (by simp), ihx]

lemma urlSearch_head {s t : List Char} (hne : s ≠ [])
    (h : matchAt false s = some t) : urlSearch false s = some t := by
  cases s with
  | nil => exact absurd rfl hne
  | cons c cs =>
    have hstep : urlSearch false (c :: cs) =
        (match matchAt false (c :: cs) with
         | some t => some t
         | none => urlSearch (isWordChar c) cs) := rfl
    rw [hstep, h]

lemma normalize_url_eval {s : List Char} (hstrip : pyStrip s = s)
    (hne : s.isEmpty = false) :
    normalize_url s =
      (match urlSearch false s with
       | none => none
       | some url =>
         if lowerStarts url "www.".data then some ("https://".data ++ url)
         else some url) := by
  unfold normalize_url
  change (if (pyStrip s).isEmpty then none
          else
            match urlSearch false (pyStrip s) with
            | none => none
            | some url =>
              if lowerStarts url "www.".data then
                some ("https://".data ++ url)
              else some url) = _
  rw [hstrip, hne]
  simp

lemma schemeTok_eval_some {pat s : List Char} (hlow : lowerStarts s pat = true)
    (hrun : (s.drop pat.length).takeWhile isUrlChar = s.drop pat.length)
    (hlen : pat.length < s.length) :
    schemeTok pat s = some s := by
  unfold schemeTok
  rw [ciStrip_of_lowerStarts hlow]
  change (if ((s.drop pat.length).takeWhile isUrlChar).isEmpty then none
          else some (s.take pat.length ++ (s.drop pat.length).takeWhile isUrlChar))
      = some s
  rw [hrun]
  have hdrop_ne : s.drop pat.length ≠ [] := by
    intro hnil
    rw [List.drop_eq_nil_iff] at hnil
    omega
  have hie : (s.drop pat.length).isEmpty = false := by
    simpa [List.isEmpty_iff] using hdrop_ne
  rw [hie]
  simp [List.take_append_drop]

lemma schemeTok_none_of_not_lower {pat s : List Char}
    (h : lowerStarts s pat = false) : schemeTok pat s = none := by
  unfold schemeTok
  cases hx : ciStrip pat s with
  | none => rfl
  | some mr =>
    obtain ⟨m, r⟩ := mr
    exact absurd (lowerStarts_of_ciStrip hx) (by simp [h])

lemma lower_www_not_http {s : List Char} (h : lowerStarts s "www.".data = true) :
    lowerStarts s "http://".data = false ∧
    lowerStarts s "https://".data = false := by
  constructor <;>
    exact startsL_false_of_ne (by decide)
      (show startsL ('w' :: "ww.".data) (pyLower s) = true from h)

lemma lower_http_not_www {s : List Char} (h : lowerStarts s "http://".data = true) :
    lowerStarts s "www.".data = false :=
  startsL_false_of_ne (by decide)
    (show startsL ('h' :: "ttp://".data) (pyLower s) = true from h)

lemma lower_https_not_www {s : List Char} (h : lowerStarts s "https://".data = true) :
    lowerStarts s "www.".data = false :=
  startsL_false_of_ne (by decide)
    (show startsL ('h' :: "ttps://".data) (pyLower s) = true from h)

lemma lower_http_not_https {s : List Char} (h : lowerStarts s "http://".data = true) :
    lowerStarts s "https://".data = false := by
  cases hx : lowerStarts s "https://".data with
  | false => rfl
  | true =>
    exfalso
    have t8 : (pyLower s).take 8 = "https://".data :=
      startsL_take (show startsL "https://".data (pyLower s) = true from hx)
    have t7 : (pyLower s).take 7 = "http://".data :=
      startsL_take (show startsL "http://".data (pyLower s) = true from h)
    have hmix : "http://".data = ("https://".data).take 7 := by
      rw [← t8, List.take_take, ← t7]
      norm_num
    exact absurd hmix (by decide)

lemma normalize_url_of_search {s u : List Char} (hstrip : pyStrip s = s)
    (hne : s.isEmpty = false) (hsearch : urlSearch false s = some u) :
    normalize_url s =
      if lowerStarts u "www.".data then some ("https://".data ++ u)
      else some u := by
  rw [normalize_url_eval hstrip hne, hsearch]

lemma gui_core_agree (r : List Char) :
    (if startsL "www.".data r then some ("https://".data ++ r)
     else if lowerStarts r "http://".data || lowerStarts r "https://".data
       then some r else none) =
    (if lowerStarts (if startsL "www.".data r then "https://".data ++ r else r)
          "http://".data ||
        lowerStarts (if startsL "www.".data r then "https://".data ++ r else r)
          "https://".data
     then some (if startsL "www.".data r then "https://".data ++ r else r)
     else none) := by
  cases hw : startsL "www.".data r with
  | true =>
    simp only [hw, if_true]
    have hlow : lowerStarts ("https://".data ++ r) "https://".data = true := by
      unfold lowerStarts pyLower
      rw [List.map_append]
      rw [show "https://".data.map Char.toLower = "https://".data from by decide]
      exact startsL_append _ _
    rw [hlow]
    simp
  | false => simp only [hw, Bool.false_eq_true, if_false]

/-- C2, counterexample: the terminal's `normalize_url` and the GUI's
`render_row` detection branch disagree on the cell value
`"see www.example.org"`: the terminal searches inside the value and
finds the URL, while the GUI only tests whether the whole stripped
value starts with a scheme and finds none. -/
theorem claim2_counterexample :
    terminal_detect (Cell.text "see www.example.org".data) =
      some "https://www.example.org".data ∧
    gui_detect_render (Cell.text "see www.example.org".data) = none :=
  ⟨by decide, by decide⟩

/-- C2, amended: the GUI's two detection branches (`render_row` and
`open_all_urls`) do implement one and the same function, but the
terminal front end does not share it: the terminal searches for a URL
token anywhere in the value (and matches `www.` case-insensitively),
while the GUI only tests whether the whole stripped value starts with a
scheme.  The front ends agree whenever the stripped value is a single
clean URL token: every character in the `[^\s<>"]` class and the value
starting with literal `www.`, or lower-starting with `http://` or
`https://`, with at least one character after the scheme. -/
theorem claim2_amended :
    (∀ v : Cell, gui_detect_render v = gui_detect_open v) ∧
    (∀ s : List Char, (∀ c ∈ s, isUrlChar c = true) →
      (startsL "www.".data s = true ∧ 4 < s.length ∨
       lowerStarts s "http://".data = true ∧ 7 < s.length ∨
       lowerStarts s "https://".data = true ∧ 8 < s.length) →
      terminal_detect (Cell.text s) = gui_detect_render (Cell.text s)) := by
  constructor
  · intro v
    cases v with
    | nan => rfl
    | text s => exact gui_core_agree (pyStrip s)
    | intFloat n => exact gui_core_agree (pyStrip (intRepr n ++ ".0".data))
  · intro s hall hcase
    have hstrip : pyStrip s = s :=
      pyStrip_eq_self (fun c hc => space_false_of_urlChar (hall c hc))
    have hne : s ≠ [] := by
      rcases hcase with ⟨_, h⟩ | ⟨_, h⟩ | ⟨_, h⟩ <;>
        (intro he; subst he; simp at h)
    have hneB : s.isEmpty = false := by
      simpa [List.isEmpty_iff] using hne
    have hterm0 : terminal_detect (Cell.text s) = normalize_url s := rfl
    have hgui : gui_detect_render (Cell.text s) =
        (if startsL "www.".data s then some ("https://".data ++ s)
         else if lowerStarts s "http://".data || lowerStarts s "https://".data
           then some s else none) := by
      show (if startsL "www.".data (pyStrip s) then
              some ("https://".data ++ pyStrip s)
            else if lowerStarts (pyStrip s) "http://".data ||
                    lowerStarts (pyStrip s) "https://".data
              then some (pyStrip s) else none) = _
      rw [hstrip]
    have hrunAll : ∀ n : Nat, (s.drop n).takeWhile isUrlChar = s.drop n :=
      fun n => takeWhile_all (fun c hc => hall c (List.drop_subset _ _ hc))
    rw [hterm0, hgui]
    rcases hcase with ⟨hw, hlen⟩ | ⟨hh, hlen⟩ | ⟨hh, hlen⟩
    · have hwlow : lowerStarts s "www.".data = true :=
        lowerStarts_of_startsL (by decide) hw
      have hx := lower_www_not_http hwlow
      have hww : wwwTok s = some s :=
        schemeTok_eval_some hwlow (hrunAll _)
          (by have : "www.".data.length = 4 := by decide
              omega)
      have hhttp : httpTok s = none := by
        unfold httpTok
        rw [schemeTok_none_of_not_lower hx.2, schemeTok_none_of_not_lower hx.1]
        rfl
      have hmat : matchAt false s = some s := by
        unfold matchAt
        rw [if_neg (by simp), hhttp, hww]
        rfl
      rw [normalize_url_of_search hstrip hneB (urlSearch_head hne hmat),
        hwlow, hw]
      simp
    · have hns := lower_http_not_https hh
      have hnw := lower_http_not_www hh
      have hww : startsL "www.".data s = false := by
        cases hz : startsL "www.".data s with
        | false => rfl
        | true =>
          exfalso
          have h1 := lowerStarts_of_startsL (by decide) hz
          have h2 := (lower_www_not_http h1).1
          rw [hh] at h2
          exact absurd h2 (by decide)
      have hhtp : httpTok s = some s := by
        unfold httpTok
        rw [schemeTok_none_of_not_lower hns,
          schemeTok_eval_some hh (hrunAll _)
            (by have h7 : "http://".data.length = 7 := by decide
                omega)]
        rfl
      have hmat : matchAt false s = some s := by
        unfold matchAt
        rw [if_neg (by simp), hhtp]
        rfl
      rw [normalize_url_of_search hstrip hneB (urlSearch_head hne hmat),
        hnw, hww, hh]
      simp
    · have hnw := lower_https_not_www hh
      have hww : startsL "www.".data s = false := by
        cases hz : startsL "www.".data s with
        | false => rfl
        | true =>
          exfalso
          have h1 := lowerStarts_of_startsL (by decide) hz
          have h2 := (lower_www_not_http h1).2
          rw [hh] at h2
          exact absurd h2 (by decide)
      have hhtp : httpTok s = some s := by
        unfold httpTok
        rw [schemeTok_eval_some hh (hrunAll _)
          (by have h8 : "https://".data.length = 8 := by decide
              omega)]
        rfl
      have hmat : matchAt false s = some s := by
        unfold matchAt
        rw [if_neg (by simp), hhtp]
        rfl
      rw [normalize_url_of_search hstrip hneB (urlSearch_head hne hmat),
        hnw, hww, hh]
      simp

/-- Witness for the amended C2 theorem: the two GUI branches agree on a
concrete cell, and on a cell that is exactly a clean `www.` URL token
the terminal and the GUI agree as well. -/
theorem claim2_amended_witness :
    gui_detect_render (Cell.text " www.Ex.com ".data) =
      gui_detect_open (Cell.text " www.Ex.com ".data) ∧
    terminal_detect (Cell.text "www.ex.com".data) =
      gui_detect_render (Cell.text "www.ex.com".data) :=
  ⟨claim2_amended.1 (Cell.text " www.Ex.com ".data),
   claim2_amended.2 "www.ex.com".data (by decide)
     (Or.inl ⟨by decide, by decide⟩)⟩

/-! ### Out-of-range record indices (C3) -/

/-- C3, counterexample: `row_lines` does not signal a failure for every
row index outside `[0, rowCount)`: `df.iloc[-1]` silently selects the
last row (Python negative indexing), so on a 2-row table `row_lines` at
index `-1` succeeds and returns the Record View built from row 1. -/
theorem claim3_counterexample :
    (row_lines exTable2 (-1)).isSome = true ∧
    row_lines exTable2 (-1) = row_lines exTable2 1 :=
  ⟨rfl, rfl⟩

/-- C3, amended: `row_lines` signals an out-of-range failure (the
`IndexError` of `iloc`) exactly for row indices `≥ rowCount` or
`< -rowCount`; an in-range negative index, accepted by Python
indexing, silently returns the Record View of row
`rowCount + rowIndex` rather than failing. -/
theorem claim3_range_amended (df : Table) (i : Int) :
    ((df.rows.length : Int) ≤ i ∨ i < -(df.rows.length : Int) →
      row_lines df i = none) ∧
    (-(df.rows.length : Int) ≤ i → i < 0 →
      row_lines df i = row_lines df ((df.rows.length : Int) + i)) := by
  constructor
  · intro h
    have hL : ilocRow df.rows i = none := by
      unfold ilocRow
      rcases h with h | h
      · rw [if_pos (by omega)]
        exact List.get?_eq_none.mpr (by omega)
      · rw [if_neg (by omega), if_neg (by omega)]
    unfold row_lines
    rw [hL]
  · intro h1 h2
    have hL : ilocRow df.rows i =
        df.rows.get? ((df.rows.length : Int) + i).toNat := by
      unfold ilocRow
      rw [if_neg (by omega), if_pos (by omega)]
    have hR : ilocRow df.rows ((df.rows.length : Int) + i) =
        df.rows.get? ((df.rows.length : Int) + i).toNat := by
      unfold ilocRow
      rw [if_pos (by omega)]
    unfold row_lines
    rw [hL, hR]

/-- Witness for the amended C3 theorem at concrete inputs: index 5 and
index -3 fail on the 2-row table, index -1 silently yields row 1. -/
theorem claim3_range_amended_witness :
    row_lines exTable2 5 = none ∧
    row_lines exTable2 (-3) = none ∧
    row_lines exTable2 (-1) = row_lines exTable2 1 :=
  ⟨(claim3_range_amended exTable2 5).1 (Or.inl (by decide)),
   (claim3_range_amended exTable2 (-3)).1 (Or.inr (by decide)),
   (claim3_range_amended exTable2 (-1)).2 (by decide) (by decide)⟩

/-! ### Record-cursor bounds (C4) -/

lemma clampFocus_row (df : Table) (s : NavState) :
    (clampFocus df s).row_idx = s.row_idx := by
  unfold clampFocus
  cases row_lines df s.row_idx with
  | none => rfl
  | some lu =>
    dsimp only
    split <;> rfl

lemma stepKey_row_bounds (df : Table) (k : Key) (s : NavState)
    (h0 : 0 ≤ s.row_idx) (h1 : s.row_idx < (df.rows.length : Int)) :
    0 ≤ (stepKey df k s).row_idx ∧
    (stepKey df k s).row_idx < (df.rows.length : Int) := by
  cases k with
  | right =>
    have hred : stepKey df Key.right s =
        (if s.row_idx < (df.rows.length : Int) - 1 then
          { row_idx := s.row_idx + 1, url_focus_i := 0 }
         else s) := rfl
    rw [hred]
    split <;> refine ⟨?_, ?_⟩ <;> dsimp only <;> omega
  | left =>
    have hred : stepKey df Key.left s =
        (if s.row_idx > 0 then
          { row_idx := s.row_idx - 1, url_focus_i := 0 }
         else s) := rfl
    rw [hred]
    split <;> refine ⟨?_, ?_⟩ <;> dsimp only <;> omega
  | tab =>
    unfold stepKey
    cases row_lines df s.row_idx with
    | none => exact ⟨h0, h1⟩
    | some lu =>
      dsimp only
      split
      · exact ⟨h0, h1⟩
      · exact ⟨h0, h1⟩
  | enter => exact ⟨h0, h1⟩

lemma loopStep_row_bounds (df : Table) (k : Key) (s : NavState)
    (h0 : 0 ≤ s.row_idx) (h1 : s.row_idx < (df.rows.length : Int)) :
    0 ≤ (loopStep df k s).row_idx ∧
    (loopStep df k s).row_idx < (df.rows.length : Int) := by
  unfold loopStep
  have hc := clampFocus_row df s
  exact stepKey_row_bounds df k _ (hc ▸ h0) (hc ▸ h1)

lemma foldl_loopStep_bounds (df : Table) :
    ∀ (ks : List Key) (s : NavState),
      0 ≤ s.row_idx → s.row_idx < (df.rows.length : Int) →
      0 ≤ (ks.foldl (fun s k => loopStep df k s) s).row_idx ∧
      (ks.foldl (fun s k => loopStep df k s) s).row_idx <
        (df.rows.length : Int) := by
  intro ks
  induction ks with
  | nil => intro s h0 h1; exact ⟨h0, h1⟩
  | cons k ks ih =>
    intro s h0 h1
    rw [List.foldl_cons]
    obtain ⟨g0, g1⟩ := loopStep_row_bounds df k s h0 h1
    exact ih _ g0 g1

/-- C4: on a non-empty table, any sequence of interactive-loop steps
starting at the initial state keeps the record cursor inside
`[0, rowCount)`; a right-arrow at the last record and a left-arrow at
record 0 leave the cursor unchanged (no wraparound, floor at 0), and
the GUI's `next_row`/`prev_row` obey the same bounds and the same
idempotence at the last record. -/
theorem claim4_cursor_bounds (df : Table) (hne : 1 ≤ df.rows.length) :
    (∀ ks : List Key,
      0 ≤ (ks.foldl (fun s k => loopStep df k s) navInit).row_idx ∧
      (ks.foldl (fun s k => loopStep df k s) navInit).row_idx <
        (df.rows.length : Int)) ∧
    (∀ s : NavState, s.row_idx = (df.rows.length : Int) - 1 →
      (loopStep df Key.right s).row_idx = s.row_idx) ∧
    (∀ s : NavState, s.row_idx = 0 →
      (loopStep df Key.left s).row_idx = s.row_idx) ∧
    (∀ row : Int, 0 ≤ row → row < (df.rows.length : Int) →
      0 ≤ gui_next_row df row ∧
      gui_next_row df row < (df.rows.length : Int) ∧
      0 ≤ gui_prev_row df row ∧
      gui_prev_row df row < (df.rows.length : Int) ∧
      (row = (df.rows.length : Int) - 1 → gui_next_row df row = row)) := by
  refine ⟨?_, ?_, ?_, ?_⟩
  · intro ks
    exact foldl_loopStep_bounds df ks navInit (by decide)
      (by show (0 : Int) < (df.rows.length : Int); omega)
  · intro s hs
    have hc := clampFocus_row df s
    show (if (clampFocus df s).row_idx < (df.rows.length : Int) - 1 then
        ({ row_idx := (clampFocus df s).row_idx + 1, url_focus_i := 0 } : NavState)
      else clampFocus df s).row_idx = s.row_idx
    rw [if_neg (by rw [hc, hs]; omega)]
    exact hc
  · intro s hs
    have hc := clampFocus_row df s
    show (if (clampFocus df s).row_idx > 0 then
        ({ row_idx := (clampFocus df s).row_idx - 1, url_focus_i := 0 } : NavState)
      else clampFocus df s).row_idx = s.row_idx
    rw [if_neg (by rw [hc, hs]; omega)]
    exact hc
  · intro row h0 h1
    unfold gui_next_row gui_prev_row
    refine ⟨?_, ?_, ?_, ?_, ?_⟩ <;> split_ifs <;> omega

/-- Witness for C4 at the concrete 3-row table and a concrete key
sequence. -/
theorem claim4_cursor_bounds_witness :
    0 ≤ (([Key.right, Key.left, Key.right, Key.right, Key.right,
           Key.tab].foldl (fun s k => loopStep exTable3 k s) navInit).row_idx) ∧
    (([Key.right, Key.left, Key.right, Key.right, Key.right,
       Key.tab].foldl (fun s k => loopStep exTable3 k s) navInit).row_idx) <
      (exTable3.rows.length : Int) :=
  (claim4_cursor_bounds exTable3 (by decide)).1
    [Key.right, Key.left, Key.right, Key.right, Key.right, Key.tab]

/-! ### URL-focus reset on record change, and the scenario trace (C5) -/

lemma urlFocusObs_of_rowlines {df : Table} {s : NavState}
    {lines : List FieldView} {urls : List Nat}
    (h : row_lines df s.row_idx = some (lines, urls)) :
    urlFocusObs df s = if urls.isEmpty then none else some s.url_focus_i := by
  unfold urlFocusObs
  rw [h]

/-- C5: whenever a left or right key changes the record cursor, the raw
URL-focus index is reset to 0, so the observed focus on the new record
is `some 0` when the record has a URL field and `none` (undefined)
otherwise; and the claimed 3-row scenario trace holds exactly:
`(0,0) →right (1,undefined) →right (2,0) →tab (2,1) →tab (2,0)
→left →left (0,0) →left (0,0)`. -/
theorem claim5_focus_reset :
    (∀ (df : Table) (k : Key) (s : NavState),
      (k = Key.left ∨ k = Key.right) →
      (loopStep df k s).row_idx ≠ s.row_idx →
      (loopStep df k s).url_focus_i = 0 ∧
      ∀ lines urls,
        row_lines df (loopStep df k s).row_idx = some (lines, urls) →
        urlFocusObs df (loopStep df k s) =
          (if urls.isEmpty then none else some 0)) ∧
    (loopStep exTable3 Key.right navInit = { row_idx := 1, url_focus_i := 0 } ∧
     urlFocusObs exTable3 { row_idx := 1, url_focus_i := 0 } = none) ∧
    (loopStep exTable3 Key.right { row_idx := 1, url_focus_i := 0 } =
        { row_idx := 2, url_focus_i := 0 } ∧
     urlFocusObs exTable3 { row_idx := 2, url_focus_i := 0 } = some 0) ∧
    (loopStep exTable3 Key.tab { row_idx := 2, url_focus_i := 0 } =
        { row_idx := 2, url_focus_i := 1 } ∧
     urlFocusObs exTable3 { row_idx := 2, url_focus_i := 1 } = some 1) ∧
    loopStep exTable3 Key.tab { row_idx := 2, url_focus_i := 1 } =
      { row_idx := 2, url_focus_i := 0 } ∧
    loopStep exTable3 Key.left { row_idx := 2, url_focus_i := 0 } =
      { row_idx := 1, url_focus_i := 0 } ∧
    (loopStep exTable3 Key.left { row_idx := 1, url_focus_i := 0 } =
        { row_idx := 0, url_focus_i := 0 } ∧
     urlFocusObs exTable3 { row_idx := 0, url_focus_i := 0 } = some 0) ∧
    loopStep exTable3 Key.left { row_idx := 0, url_focus_i := 0 } =
      { row_idx := 0, url_focus_i := 0 } := by
  refine ⟨?_, by decide, by decide, by decide, by decide, by decide,
    by decide, by decide⟩
  intro df k s hk hchange
  rcases hk with rfl | rfl
  · have hred : loopStep df Key.left s =
        (if (clampFocus df s).row_idx > 0 then
          { row_idx := (clampFocus df s).row_idx - 1, url_focus_i := 0 }
         else clampFocus df s) := rfl
    rw [hred] at hchange ⊢
    by_cases hc : (clampFocus df s).row_idx > 0
    · rw [if_pos hc]
      refine ⟨rfl, ?_⟩
      intro lines urls h
      rw [urlFocusObs_of_rowlines h]
    · rw [if_neg hc] at hchange
      exact absurd (clampFocus_row df s) hchange
  · have hred : loopStep df Key.right s =
        (if (clampFocus df s).row_idx < (df.rows.length : Int) - 1 then
          { row_idx := (clampFocus df s).row_idx + 1, url_focus_i := 0 }
         else clampFocus df s) := rfl
    rw [hred] at hchange ⊢
    by_cases hc : (clampFocus df s).row_idx < (df.rows.length : Int) - 1
    · rw [if_pos hc]
      refine ⟨rfl, ?_⟩
      intro lines urls h
      rw [urlFocusObs_of_rowlines h]
    · rw [if_neg hc] at hchange
      exact absurd (clampFocus_row df s) hchange

/-- Witness for the universally quantified part of C5: a right key from
the initial state of the 3-row table moves to record 1 and resets the
focus, and record 1 has no URL field so the observed focus is
undefined. -/
theorem claim5_focus_reset_witness :
    (loopStep exTable3 Key.right navInit).url_focus_i = 0 ∧
    urlFocusObs exTable3 (loopStep exTable3 Key.right navInit) = none := by
  have h := claim5_focus_reset.1 exTable3 Key.right navInit (Or.inr rfl)
    (by decide)
  refine ⟨h.1, ?_⟩
  have h2 := h.2 [("A".data, "x".data, none), ("B".data, "y".data, none)]
    [] (by rfl)
  simpa using h2

/-! ### URL-focus cycling (C6) -/

lemma stepKey_tab_eval {df : Table} {s : NavState} {lines : List FieldView}
    {urls : List Nat} (h : row_lines df s.row_idx = some (lines, urls))
    (hne : urls ≠ []) :
    stepKey df Key.tab s =
      { s with url_focus_i := (s.url_focus_i + 1) % (urls.length : Int) } := by
  have hred : stepKey df Key.tab s =
      (match row_lines df s.row_idx with
       | some lu =>
         if lu.2.isEmpty then s
         else { s with url_focus_i := (s.url_focus_i + 1) % (lu.2.length : Int) }
       | none => s) := rfl
  rw [hred, h]
  dsimp only
  rw [if_neg (by simpa [List.isEmpty_iff] using hne)]

lemma tab_iterate {df : Table} {lines : List FieldView} {urls : List Nat}
    {s : NavState} (h : row_lines df s.row_idx = some (lines, urls))
    (hne : urls ≠ []) (hf0 : 0 ≤ s.url_focus_i)
    (hf1 : s.url_focus_i < (urls.length : Int)) :
    ∀ k : Nat, (stepKey df Key.tab)^[k] s =
      { s with url_focus_i :=
          (s.url_focus_i + (k : Int)) % (urls.length : Int) } := by
  intro k
  induction k with
  | zero =>
    simp only [Function.iterate_zero, id_eq, Nat.cast_zero, add_zero]
    rw [Int.emod_eq_of_lt hf0 hf1]
  | succ k ih =>
    rw [Function.iterate_succ_apply', ih]
    have hrow : row_lines df
        ({ s with url_focus_i :=
            (s.url_focus_i + (k : Int)) % (urls.length : Int) } :
          NavState).row_idx = some (lines, urls) := h
    rw [stepKey_tab_eval hrow hne]
    show ({ s with url_focus_i :=
        ((s.url_focus_i + (k : Int)) % (urls.length : Int) + 1) %
          (urls.length : Int) } : NavState) = _
    have harith :
        ((s.url_focus_i + (k : Int)) % (urls.length : Int) + 1) %
          (urls.length : Int) =
        (s.url_focus_i + ((k : Nat) + 1 : Nat)) % (urls.length : Int) := by
      rw [Int.emod_add_emod]
      push_cast
      ring_nf
    rw [harith]

/-- C6: a TAB step is a no-op when the current record's URL index list
is empty; otherwise it advances the URL focus by one modulo the list
length, and starting from any valid focus, as many TAB steps as the
list has entries return the state to its starting value (cyclic
law). -/
theorem claim6_cycle (df : Table) (s : NavState) (lines : List FieldView)
    (urls : List Nat) (h : row_lines df s.row_idx = some (lines, urls)) :
    (urls = [] → stepKey df Key.tab s = s) ∧
    (urls ≠ [] → stepKey df Key.tab s =
      { s with url_focus_i := (s.url_focus_i + 1) % (urls.length : Int) }) ∧
    (0 ≤ s.url_focus_i → s.url_focus_i < (urls.length : Int) →
      (stepKey df Key.tab)^[urls.length] s = s) := by
  refine ⟨?_, fun hne => stepKey_tab_eval h hne, ?_⟩
  · intro he
    subst he
    have hred : stepKey df Key.tab s =
        (match row_lines df s.row_idx with
         | some lu =>
           if lu.2.isEmpty then s
           else { s with url_focus_i :=
               (s.url_focus_i + 1) % (lu.2.length : Int) }
         | none => s) := rfl
    rw [hred, h]
    rfl
  · intro h0 h1
    by_cases hne : urls = []
    · subst hne
      rfl
    · rw [tab_iterate h hne h0 h1 urls.length]
      have hmod : (s.url_focus_i + (urls.length : Int)) %
          (urls.length : Int) = s.url_focus_i := by
        have h2 : s.url_focus_i + (urls.length : Int) =
            s.url_focus_i + (urls.length : Int) * 1 := by ring
        rw [h2, Int.add_mul_emod_self_left]
        exact Int.emod_eq_of_lt h0 h1
      rw [hmod]

/-- Witness for C6 on record 2 of the 3-row table, whose URL index list
is `[0, 1]`: one TAB moves the focus from 0 to 1, and two TABs return
to the start. -/
theorem claim6_cycle_witness :
    stepKey exTable3 Key.tab { row_idx := 2, url_focus_i := 0 } =
      { row_idx := 2, url_focus_i := 1 } ∧
    (stepKey exTable3 Key.tab)^[2] { row_idx := 2, url_focus_i := 0 } =
      { row_idx := 2, url_focus_i := 0 } := by
  have h := claim6_cycle exTable3 { row_idx := 2, url_focus_i := 0 }
    [("A".data, "www.a".data, some "https://www.a".data),
     ("B".data, "http://b".data, some "http://b".data)]
    [0, 1] (by rfl)
  constructor
  · rw [h.2.1 (by decide)]
    decide
  · exact h.2.2 (by decide) (by decide)

/-! ### The empty table (C7) -/

/-- C7: when the loaded table has zero rows, every interactive-loop
step from the initial state is a no-op, the GUI's `prev_row` and
`next_row` return unchanged for every cursor value, `open_all_urls`
collects nothing, and the rendered view is the well-defined empty
Record View; no operation signals an error. -/
theorem claim7_empty_table (df : Table) (hz : df.rows = []) :
    (∀ k : Key, loopStep df k navInit = navInit) ∧
    (∀ row : Int, gui_next_row df row = row ∧ gui_prev_row df row = row) ∧
    currentView df 0 = ([], []) ∧
    open_all_urls df 0 = [] := by
  have hlen : df.rows.length = 0 := by rw [hz]; rfl
  have hrl : ∀ i : Int, row_lines df i = none := by
    intro i
    have hiloc : ilocRow df.rows i = none := by
      unfold ilocRow
      rw [hz]
      simp only [List.length_nil, Nat.cast_zero, neg_zero]
      split_ifs with hpos
      · exact List.get?_eq_none.mpr (by simp)
      · rfl
    unfold row_lines
    rw [hiloc]
  refine ⟨?_, ?_, ?_, ?_⟩
  · intro k
    unfold loopStep
    rw [show clampFocus df navInit = navInit from by
      unfold clampFocus; rw [hrl]]
    cases k with
    | right =>
      show (if (navInit.row_idx < (df.rows.length : Int) - 1) then
          ({ row_idx := navInit.row_idx + 1, url_focus_i := 0 } : NavState)
        else navInit) = navInit
      rw [if_neg (by rw [hlen]; decide)]
    | left =>
      show (if (navInit.row_idx > 0) then
          ({ row_idx := navInit.row_idx - 1, url_focus_i := 0 } : NavState)
        else navInit) = navInit
      rw [if_neg (by decide)]
    | tab =>
      have hred : stepKey df Key.tab navInit =
          (match row_lines df navInit.row_idx with
           | some lu =>
             if lu.2.isEmpty then navInit
             else { navInit with url_focus_i :=
                 (navInit.url_focus_i + 1) % (lu.2.length : Int) }
           | none => navInit) := rfl
      rw [hred, hrl]
    | enter => rfl
  · intro row
    unfold gui_next_row gui_prev_row
    rw [hlen]
    simp
  · unfold currentView
    rw [hlen]
    simp
  · unfold open_all_urls
    rw [hlen]
    simp

/-- Witness for C7 at the concrete zero-row table. -/
theorem claim7_empty_table_witness :
    loopStep exTable0 Key.right navInit = navInit ∧
    gui_next_row exTable0 5 = 5 ∧
    currentView exTable0 0 = ([], []) ∧
    open_all_urls exTable0 0 = [] :=
  ⟨(claim7_empty_table exTable0 rfl).1 Key.right,
   ((claim7_empty_table exTable0 rfl).2.1 5).1,
   (claim7_empty_table exTable0 rfl).2.2.1,
   (claim7_empty_table exTable0 rfl).2.2.2⟩

/-! ### The URL index list invariant (C8) -/

lemma row_lines_loop_eq (ps : List (List Char × Cell)) :
    ∀ (lines : List FieldView) (urls : List Nat),
      row_lines_loop ps lines urls =
        (lines ++ ps.map fieldView, urls ++ urlIdx ps lines.length) := by
  induction ps with
  | nil => intro lines urls; simp [row_lines_loop, urlIdx]
  | cons cv rest ih =>
    intro lines urls
    show row_lines_loop rest (lines ++ [fieldView cv])
        (if truthy (fieldView cv).2.2 then
          urls ++ [(lines ++ [fieldView cv]).length - 1]
         else urls) = _
    rw [ih]
    cases ht : truthy (fieldView cv).2.2 with
    | true =>
      simp only [ht, if_true, urlIdx, List.length_append,
        List.length_singleton, Nat.add_sub_cancel, List.append_assoc,
        List.map_cons, List.singleton_append, List.cons_append,
        List.nil_append, Prod.mk.injEq, true_and]
    | false =>
      simp [ht, urlIdx, List.append_assoc]

lemma urlIdx_lb {ps : List (List Char × Cell)} :
    ∀ {off j : Nat}, j ∈ urlIdx ps off → off ≤ j := by
  induction ps with
  | nil => intro off j h; simp [urlIdx] at h
  | cons cv rest ih =>
    intro off j h
    unfold urlIdx at h
    rcases List.mem_append.mp h with h1 | h1
    · cases ht : truthy (fieldView cv).2.2 with
      | true => rw [ht] at h1; simp at h1; omega
      | false => rw [ht] at h1; simp at h1
    · have := ih h1
      omega

lemma urlIdx_pairwise (ps : List (List Char × Cell)) :
    ∀ off : Nat, List.Pairwise (· < ·) (urlIdx ps off) := by
  induction ps with
  | nil => intro off; simp [urlIdx]
  | cons cv rest ih =>
    intro off
    unfold urlIdx
    rw [List.pairwise_append]
    refine ⟨?_, ih (off + 1), ?_⟩
    · split <;> simp
    · intro a ha b hb
      have hb' := urlIdx_lb hb
      cases ht : truthy (fieldView cv).2.2 with
      | true => rw [ht] at ha; simp at ha; omega
      | false => rw [ht] at ha; simp at ha

lemma urlIdx_mem_imp {ps : List (List Char × Cell)} :
    ∀ {off j : Nat}, j ∈ urlIdx ps off →
      ∃ k cv, ps.get? k = some cv ∧ j = off + k ∧
        truthy (fieldView cv).2.2 = true := by
  induction ps with
  | nil => intro off j h; simp [urlIdx] at h
  | cons cv rest ih =>
    intro off j h
    unfold urlIdx at h
    rcases List.mem_append.mp h with h1 | h1
    · cases ht : truthy (fieldView cv).2.2 with
      | true =>
        rw [ht] at h1
        simp at h1
        exact ⟨0, cv, rfl, by omega, ht⟩
      | false => rw [ht] at h1; simp at h1
    · obtain ⟨k, cv', hget, hj, ht⟩ := ih h1
      exact ⟨k + 1, cv', by simpa using hget, by omega, ht⟩

lemma truthy_some {o : Option (List Char)} (h : truthy o = true) :
    ∃ u, o = some u ∧ u ≠ [] := by
  cases o with
  | none => simp [truthy] at h
  | some u =>
    refine ⟨u, rfl, ?_⟩
    simpa [truthy, List.isEmpty_iff] using h

/-- C8: for every table and every row index `iloc` accepts, the URL
index list of the Record View is strictly increasing (so it preserves
column order, with the leftmost URL-bearing column first), each listed
index refers to a Field View of the list, that Field View's normalized
URL is present and non-empty, and on a well-formed table the field
views carry the column names in table order. -/
theorem claim8_url_index_list (df : Table) (i : Int)
    (lines : List FieldView) (urls : List Nat)
    (h : row_lines df i = some (lines, urls)) :
    List.Pairwise (· < ·) urls ∧
    (∀ j ∈ urls, j < lines.length ∧
      ∃ fv, lines.get? j = some fv ∧ ∃ u, fv.2.2 = some u ∧ u ≠ []) ∧
    (df.WF → lines.map (fun fv => fv.1) = df.cols) := by
  unfold row_lines at h
  cases hiloc : ilocRow df.rows i with
  | none => rw [hiloc] at h; simp at h
  | some row =>
    rw [hiloc] at h
    simp only [Option.some.injEq] at h
    rw [row_lines_loop_eq] at h
    simp only [List.nil_append, List.length_nil, Prod.mk.injEq] at h
    obtain ⟨hlines, hurls⟩ := h
    subst hlines
    subst hurls
    refine ⟨urlIdx_pairwise _ 0, ?_, ?_⟩
    · intro j hj
      obtain ⟨k, cv, hget, hjk, ht⟩ := urlIdx_mem_imp hj
      have hjeq : j = k := by omega
      subst hjeq
      have hmap : ((df.cols.zip row).map fieldView).get? j =
          some (fieldView cv) := by
        rw [List.get?_map, hget]
        rfl
      have hlt : j < ((df.cols.zip row).map fieldView).length := by
        have := List.get?_eq_some.mp hmap
        exact this.1
      obtain ⟨u, hu, hune⟩ := truthy_some ht
      exact ⟨hlt, fieldView cv, hmap, u, hu, hune⟩
    · intro hwf
      have hrowmem : row ∈ df.rows := by
        unfold ilocRow at hiloc
        split_ifs at hiloc <;> exact List.get?_mem hiloc
      have hlen : df.cols.length ≤ row.length := by
        rw [hwf row hrowmem]
      have hfst : ∀ cv : List Char × Cell, (fieldView cv).1 = cv.1 :=
        fun cv => rfl
      rw [List.map_map]
      calc ((df.cols.zip row).map (fun cv => (fieldView cv).1))
      _ = (df.cols.zip row).map Prod.fst := by
        exact List.map_congr_left (fun cv _ => hfst cv)
      _ = df.cols := List.map_fst_zip _ _ hlen

/-- Witness for C8: the Record View of row 2 of the 3-row table. -/
theorem claim8_url_index_list_witness :
    ∃ lines urls, row_lines exTable3 2 = some (lines, urls) ∧
      List.Pairwise (· < ·) urls ∧
      (∀ j ∈ urls, j < lines.length ∧
        ∃ fv, lines.get? j = some fv ∧ ∃ u, fv.2.2 = some u ∧ u ≠ []) ∧
      lines.map (fun fv => fv.1) = exTable3.cols := by
  refine ⟨_, _, rfl, ?_⟩
  have h := claim8_url_index_list exTable3 2 _ _ rfl
  exact ⟨h.1, h.2.1, h.2.2 (by unfold Table.WF; decide)⟩

/-! ### Cell rendering (C9) -/

lemma digitChar_ne_dot (d : Nat) : digitChar d ≠ '.' := by
  unfold digitChar
  split <;> decide

lemma natRepr_no_dot (n : Nat) : '.' ∉ natRepr n := by
  induction n using Nat.strong_induction_on with
  | _ n ih =>
    rw [natRepr]
    split
    · intro hmem
      exact digitChar_ne_dot n (List.mem_singleton.mp hmem).symm
    · intro hmem
      rcases List.mem_append.mp hmem with h1 | h1
      · exact ih (n / 10) (Nat.div_lt_self (by omega) (by omega)) h1
      · exact digitChar_ne_dot (n % 10) (List.mem_singleton.mp h1).symm

lemma intRepr_no_dot (i : Int) : '.' ∉ intRepr i := by
  unfold intRepr
  split
  · intro hmem
    rcases List.mem_cons.mp hmem with h1 | h1
    · exact absurd h1 (by decide)
    · exact natRepr_no_dot _ h1
  · exact natRepr_no_dot _

/-- C9, counterexample: the terminal viewer's normalized string form is
not trimmed (a cell holding `" hi "` keeps its spaces in both value and
shown form), and a whitespace-only cell is not collapsed to the
`(empty)` sentinel — only NaN/absent and the exactly-empty string
are. -/
theorem claim9_counterexample :
    to_str (Cell.text " hi ".data) = " hi ".data ∧
    " hi ".data ≠ pyStrip " hi ".data ∧
    (fieldView ("A".data, Cell.text " ".data)).2.1 = " ".data ∧
    (fieldView ("A".data, Cell.text " ".data)).2.1 ≠ "(empty)".data :=
  ⟨rfl, by decide, by decide, by decide⟩

/-- C9, amended: the normalized string form of a cell is the untrimmed
rendering of the raw value; a NaN/absent cell renders as the empty
string and is shown as the `(empty)` sentinel (never a source-language
null representation), as is an exactly-empty text cell — while a
non-empty (in particular whitespace-only) text cell is shown as
itself; and a numeric value that is mathematically an integer is
rendered via `str(int(x))`, without a decimal point. -/
theorem claim9_render_amended :
    (∀ s : List Char, to_str (Cell.text s) = s) ∧
    to_str Cell.nan = [] ∧
    (∀ col : List Char, (fieldView (col, Cell.nan)).2.1 = "(empty)".data) ∧
    (∀ col : List Char, (fieldView (col, Cell.text [])).2.1 = "(empty)".data) ∧
    (∀ (col : List Char) (s : List Char), s ≠ [] →
      (fieldView (col, Cell.text s)).2.1 = s) ∧
    (∀ n : Int, to_str (Cell.intFloat n) = intRepr n ∧ '.' ∉ intRepr n) := by
  refine ⟨fun s => rfl, rfl, fun col => rfl, fun col => rfl, ?_,
    fun n => ⟨rfl, intRepr_no_dot n⟩⟩
  intro col s hne
  show (if (to_str (Cell.text s)).isEmpty then "(empty)".data
        else to_str (Cell.text s)) = s
  rw [if_neg (by simpa [List.isEmpty_iff] using hne)]
  rfl

/-- Witness for the amended C9 theorem: a non-empty text cell is shown
as itself. -/
theorem claim9_render_amended_witness :
    (fieldView ("A".data, Cell.text "hi".data)).2.1 = "hi".data :=
  claim9_render_amended.2.2.2.2.1 "A".data "hi".data (by decide)

end XlsxViewer
